import Mathlib

/-!
Verification of the Mach-O decoder core of the `apple-core` repository.

Byte sources are modelled as `List Nat` (one Nat per byte, values < 256 by
construction of the inputs).  Sequential reads from a Python file object or
`BytesIO` are modelled either as stream consumption (`List Nat → ... × List Nat`)
or, where the source seeks to absolute positions, as position-indexed reads on
the full byte list.  Python exceptions (struct.error, ValueError,
UnicodeDecodeError) are modelled with `Option`: `none` is a raised exception.
Python `str` values are modelled as Lean `String`.
-/

namespace AppleCore

/-- Embeds `core.utils.endian_utils.Endianness`. -/
inductive Endianness where
  | little
  | big
deriving DecidableEq

/-- Value of a byte list interpreted little-endian (least significant byte first). -/
def bytesLE (l : List Nat) : Nat := l.foldr (fun b acc => b + 256 * acc) 0

/-- Value of a byte list interpreted big-endian (most significant byte first). -/
def bytesBE (l : List Nat) : Nat := l.foldl (fun acc b => acc * 256 + b) 0

/-- Interpret four bytes per the given byte order (struct `<I` / `>I`). -/
def unpack32 (e : Endianness) (b0 b1 b2 b3 : Nat) : Nat :=
  match e with
  | .little => b0 + 256 * (b1 + 256 * (b2 + 256 * b3))
  | .big => b3 + 256 * (b2 + 256 * (b1 + 256 * b0))

/-- Interpret eight bytes per the given byte order (struct `<Q` / `>Q`). -/
def unpack64 (e : Endianness) (b0 b1 b2 b3 b4 b5 b6 b7 : Nat) : Nat :=
  match e with
  | .little => b0 + 256 * (b1 + 256 * (b2 + 256 * (b3 + 256 * (b4 + 256 * (b5 + 256 * (b6 + 256 * b7))))))
  | .big => b7 + 256 * (b6 + 256 * (b5 + 256 * (b4 + 256 * (b3 + 256 * (b2 + 256 * (b1 + 256 * b0))))))

/-- Two's-complement reading of a 16-bit pattern (struct `h` after combining bytes). -/
def toSigned16 (v : Nat) : Int :=
  if v < 32768 then (v : Int) else (v : Int) - 65536

/-- Embeds `read_uint32` on a sequential stream: struct.unpack errors when fewer than
4 bytes remain (`none`); otherwise the value and the remaining stream. -/
def readU32 (e : Endianness) : List Nat → Option (Nat × List Nat)
  | b0 :: b1 :: b2 :: b3 :: rest => some (unpack32 e b0 b1 b2 b3, rest)
  | _ => none

/-- Embeds `read_uint64` on a sequential stream. -/
def readU64 (e : Endianness) : List Nat → Option (Nat × List Nat)
  | b0 :: b1 :: b2 :: b3 :: b4 :: b5 :: b6 :: b7 :: rest =>
      some (unpack64 e b0 b1 b2 b3 b4 b5 b6 b7, rest)
  | _ => none

/-- Embeds `struct.unpack('<h', file.read(2))`: always little-endian, signed. -/
def readS16LE : List Nat → Option (Int × List Nat)
  | b0 :: b1 :: rest => some (toSigned16 (b0 + 256 * b1), rest)
  | _ => none

/-- Embeds `int.from_bytes(file.read(1), byteorder='little')`: an empty read yields 0,
never an error. -/
def readByteFB : List Nat → Nat × List Nat
  | [] => (0, [])
  | b :: rest => (b, rest)

/-- Unchecked 4-byte value at absolute position `p` of file `f`. -/
def u32at (f : List Nat) (p : Nat) (e : Endianness) : Nat :=
  match e with
  | .little => bytesLE ((f.drop p).take 4)
  | .big => bytesBE ((f.drop p).take 4)

/-- Positional `read_uint32`: seek to `p`, read 4 bytes, unpack (error on a
short read). -/
def readU32At (f : List Nat) (p : Nat) (e : Endianness) : Option Nat :=
  if p + 4 ≤ f.length then some (u32at f p e) else none

/-- Positional `read_uint64`. -/
def readU64At (f : List Nat) (p : Nat) (e : Endianness) : Option Nat :=
  if p + 8 ≤ f.length then
    some (match e with
          | .little => bytesLE ((f.drop p).take 8)
          | .big => bytesBE ((f.drop p).take 8))
  else none

/-! UTF-8 decoding as performed by Python `bytes.decode('utf-8', ...)`.
`utf8Strict` models `errors='strict'` (an undecodable input raises, i.e.
`none`); `utf8Replace` models `errors='replace'` (each maximal invalid
subpart becomes one U+FFFD). -/

/-- Is `b` a UTF-8 continuation byte? -/
def isCont (b : Nat) : Bool := 0x80 ≤ b && b ≤ 0xBF

/-- Valid first continuation byte after a three-byte lead (excludes overlong
forms and surrogates, as CPython does). -/
def validCont31 (b0 b1 : Nat) : Bool :=
  if b0 = 0xE0 then 0xA0 ≤ b1 && b1 ≤ 0xBF
  else if b0 = 0xED then 0x80 ≤ b1 && b1 ≤ 0x9F
  else isCont b1

/-- Valid first continuation byte after a four-byte lead (excludes overlong
forms and values above U+10FFFF). -/
def validCont41 (b0 b1 : Nat) : Bool :=
  if b0 = 0xF0 then 0x90 ≤ b1 && b1 ≤ 0xBF
  else if b0 = 0xF4 then 0x80 ≤ b1 && b1 ≤ 0x8F
  else isCont b1

/-- The replacement character U+FFFD. -/
def repChar : Char := Char.ofNat 0xFFFD

/-- One pass of the replacement decoder, with fuel for structural
termination; each step consumes at least one byte, so `fuel = l.length`
(as used by `utf8Replace`) never runs out. -/
def utf8ReplaceGo : Nat → List Nat → List Char
  | 0, _ => []
  | _, [] => []
  | fuel + 1, b0 :: t0 =>
    if b0 < 0x80 then Char.ofNat b0 :: utf8ReplaceGo fuel t0
    else if 0xC2 ≤ b0 && b0 ≤ 0xDF then
      match t0 with
      | b1 :: t1 =>
        if isCont b1 then Char.ofNat ((b0 - 0xC0) * 64 + (b1 - 0x80)) :: utf8ReplaceGo fuel t1
        else repChar :: utf8ReplaceGo fuel (b1 :: t1)
      | [] => [repChar]
    else if 0xE0 ≤ b0 && b0 ≤ 0xEF then
      match t0 with
      | b1 :: t1 =>
        if validCont31 b0 b1 then
          match t1 with
          | b2 :: t2 =>
            if isCont b2 then
              Char.ofNat (((b0 - 0xE0) * 64 + (b1 - 0x80)) * 64 + (b2 - 0x80)) :: utf8ReplaceGo fuel t2
            else repChar :: utf8ReplaceGo fuel (b2 :: t2)
          | [] => [repChar]
        else repChar :: utf8ReplaceGo fuel (b1 :: t1)
      | [] => [repChar]
    else if 0xF0 ≤ b0 && b0 ≤ 0xF4 then
      match t0 with
      | b1 :: t1 =>
        if validCont41 b0 b1 then
          match t1 with
          | b2 :: t2 =>
            if isCont b2 then
              match t2 with
              | b3 :: t3 =>
                if isCont b3 then
                  Char.ofNat ((((b0 - 0xF0) * 64 + (b1 - 0x80)) * 64 + (b2 - 0x80)) * 64 + (b3 - 0x80))
                    :: utf8ReplaceGo fuel t3
                else repChar :: utf8ReplaceGo fuel (b3 :: t3)
              | [] => [repChar]
            else repChar :: utf8ReplaceGo fuel (b2 :: t2)
          | [] => [repChar]
        else repChar :: utf8ReplaceGo fuel (b1 :: t1)
      | [] => [repChar]
    else repChar :: utf8ReplaceGo fuel t0

/-- Embeds `bytes.decode('utf-8', errors='replace')`. -/
def utf8Replace (l : List Nat) : List Char := utf8ReplaceGo l.length l

/-- The strict decoder with fuel, as for `utf8ReplaceGo`. -/
def utf8StrictGo : Nat → List Nat → Option (List Char)
  | 0, _ => some []
  | _, [] => some []
  | fuel + 1, b0 :: t0 =>
    if b0 < 0x80 then (utf8StrictGo fuel t0).map (Char.ofNat b0 :: ·)
    else if 0xC2 ≤ b0 && b0 ≤ 0xDF then
      match t0 with
      | b1 :: t1 =>
        if isCont b1 then (utf8StrictGo fuel t1).map (Char.ofNat ((b0 - 0xC0) * 64 + (b1 - 0x80)) :: ·)
        else none
      | [] => none
    else if 0xE0 ≤ b0 && b0 ≤ 0xEF then
      match t0 with
      | b1 :: t1 =>
        if validCont31 b0 b1 then
          match t1 with
          | b2 :: t2 =>
            if isCont b2 then
              (utf8StrictGo fuel t2).map
                (Char.ofNat (((b0 - 0xE0) * 64 + (b1 - 0x80)) * 64 + (b2 - 0x80)) :: ·)
            else none
          | [] => none
        else none
      | [] => none
    else if 0xF0 ≤ b0 && b0 ≤ 0xF4 then
      match t0 with
      | b1 :: t1 =>
        if validCont41 b0 b1 then
          match t1 with
          | b2 :: t2 =>
            if isCont b2 then
              match t2 with
              | b3 :: t3 =>
                if isCont b3 then
                  (utf8StrictGo fuel t3).map
                    (Char.ofNat ((((b0 - 0xF0) * 64 + (b1 - 0x80)) * 64 + (b2 - 0x80)) * 64 + (b3 - 0x80)) :: ·)
                else none
              | [] => none
            else none
          | [] => none
        else none
      | [] => none
    else none

/-- Embeds `bytes.decode('utf-8')` (strict): `none` models the raised
`UnicodeDecodeError`. -/
def utf8Strict (l : List Nat) : Option (List Char) := utf8StrictGo l.length l

/-- Python `str.rstrip('\0')`: drop trailing NUL characters only. -/
def rstripNul (cs : List Char) : List Char :=
  (cs.reverse.dropWhile (fun c => c = Char.ofNat 0)).reverse

/-! Constants from `core/services/parser_service.py`. -/

def MAGIC_32_LE : Nat := 0xFEEDFACE
def MAGIC_64_LE : Nat := 0xFEEDFACF
def MAGIC_32_BE : Nat := 0xCEFAEDFE
def MAGIC_64_BE : Nat := 0xCFFAEDFE
def FAT_MAGIC : Nat := 0xCAFEBABE
def FAT_MAGIC_64 : Nat := 0xCAFEBABF
def LC_SEGMENT : Nat := 0x1
def LC_SEGMENT_64 : Nat := 0x19
def N_STAB : Nat := 0xe0
def N_TYPE : Nat := 0x0e
def N_EXT : Nat := 0x01
def N_ABS : Nat := 0x2
def N_SECT : Nat := 0xe

/-- Embeds `core.utils.endian_utils.detect_endianness`; `none` models the raised
`ValueError` on an unrecognized magic. -/
def detect_endianness (magic : Nat) : Option Endianness :=
  if magic = 0xFEEDFACE ∨ magic = 0xFEEDFACF then some .little
  else if magic = 0xCEFAEDFE ∨ magic = 0xCFFAEDFE then some .big
  else none

/-- Embeds `core.utils.endian_utils.is_64_bit`. -/
def is_64_bit (magic : Nat) : Bool :=
  magic == 0xFEEDFACF || magic == 0xCFFAEDFE

/-- The `ParsedHeader` dataclass. -/
structure ParsedHeader where
  magic : Nat
  cpu_type : Nat
  cpu_subtype : Nat
  file_type : Nat
  ncmds : Nat
  sizeofcmds : Nat
  flags : Nat
  reserved : Option Nat
  is_64_bit : Bool
  endianness : Endianness
deriving DecidableEq

/-- The `ParsedFatHeader` dataclass. -/
structure ParsedFatHeader where
  magic : Nat
  nfat_arch : Nat
  is_64_bit : Bool
deriving DecidableEq

/-- The `ParsedFatArch` dataclass. -/
structure ParsedFatArch where
  cputype : Nat
  cpusubtype : Nat
  offset : Nat
  size : Nat
  align : Nat
deriving DecidableEq

/-- The `ParsedLoadCommand` dataclass. -/
structure ParsedLoadCommand where
  cmd_type : Nat
  cmd_size : Nat
  cmd_offset : Nat
  cmd_data : List Nat
deriving DecidableEq

/-- The `ParsedSection` dataclass. -/
structure ParsedSection where
  sectname : String
  segname : String
  addr : Nat
  size : Nat
  offset : Nat
  align : Nat
  flags : Nat
deriving DecidableEq

/-- The `ParsedSegment` dataclass (`sections` is `None` until filled in). -/
structure ParsedSegment where
  segname : String
  vmaddr : Nat
  vmsize : Nat
  fileoff : Nat
  filesize : Nat
  maxprot : Nat
  initprot : Nat
  nsects : Nat
  flags : Nat
  cmd_offset : Nat
  is_64_bit : Bool
  sections : Option (List ParsedSection)
deriving DecidableEq

/-- The `ParsedSymbol` dataclass. -/
structure ParsedSymbol where
  name : String
  type : Nat
  sect : Nat
  desc : Int
  value : Nat
  is_external : Bool
  is_debug : Bool
  is_local : Bool
  is_defined : Bool
deriving DecidableEq

/-- Embeds `MachoParser.parse_header`, reading at absolute position `pos` of `f` and
returning the header plus the final reader position.  The magic is first
unpacked with `'<I'`, classified, then the seven header words (and the 64-bit
`reserved` word) are re-read with the detected byte order. -/
def parse_header (f : List Nat) (pos : Nat) : Option (ParsedHeader × Nat) :=
  if ((f.drop pos).take 4).length < 4 then none
  else
    let magic0 := bytesLE ((f.drop pos).take 4)
    match detect_endianness magic0 with
    | none => none
    | some e =>
      if pos + 28 ≤ f.length then
        let m := u32at f pos e
        let ct := u32at f (pos + 4) e
        let cst := u32at f (pos + 8) e
        let ft := u32at f (pos + 12) e
        let nc := u32at f (pos + 16) e
        let sz := u32at f (pos + 20) e
        let fl := u32at f (pos + 24) e
        if is_64_bit magic0 then
          match readU32At f (pos + 28) e with
          | none => none
          | some r => some (⟨m, ct, cst, ft, nc, sz, fl, some r, true, e⟩, pos + 32)
        else
          some (⟨m, ct, cst, ft, nc, sz, fl, none, false, e⟩, pos + 28)
      else none

/-- The per-command loop of `MachoParser.parse_load_commands`: at position
`pos` record `cmd_offset`, read `cmd_type` and `cmd_size`, seek back and read
`cmd_size` bytes verbatim; the next command starts where that read ended. -/
def parseLoadCommandsLoop (f : List Nat) (e : Endianness) : Nat → Nat → Option (List ParsedLoadCommand)
  | _, 0 => some []
  | pos, n + 1 =>
    match readU32At f pos e, readU32At f (pos + 4) e with
    | some ct, some cs =>
      let data := (f.drop pos).take cs
      (parseLoadCommandsLoop f e (pos + data.length) n).map
        (fun rest => ⟨ct, cs, pos, data⟩ :: rest)
    | _, _ => none

/-- Embeds `MachoParser.parse_load_commands`: seeks to the absolute offset 28
(32-bit) or 32 (64-bit) — not relative to any fat-slice base — and walks
exactly `ncmds` commands. -/
def parse_load_commands (f : List Nat) (header : ParsedHeader) : Option (List ParsedLoadCommand) :=
  parseLoadCommandsLoop f header.endianness (if header.is_64_bit then 32 else 28) header.ncmds

/-- Embeds `MachoParser.is_fat_binary` on a source positioned at `pos`: read four
bytes, restore the position, and test the big-endian magic; a short read
yields `false`.  Returns the decision and the final reader position. -/
def is_fat_binary (f : List Nat) (pos : Nat) : Bool × Nat :=
  let magicBytes := (f.drop pos).take 4
  if magicBytes.length = 4 then
    ((bytesBE magicBytes == FAT_MAGIC) || (bytesBE magicBytes == FAT_MAGIC_64), pos)
  else (false, pos)

/-- Embeds `MachoParser.parse_fat_header` at position `pos` (fat headers are always
big-endian). -/
def parse_fat_header (f : List Nat) (pos : Nat) : Option (ParsedFatHeader × Nat) :=
  match readU32At f pos .big, readU32At f (pos + 4) .big with
  | some magic, some nfat => some (⟨magic, nfat, magic == FAT_MAGIC_64⟩, pos + 8)
  | _, _ => none

/-- Embeds `MachoParser.parse_fat_arch` at position `pos` (always big-endian; the
64-bit form has 64-bit offset/size and a trailing reserved word that is read
and discarded). -/
def parse_fat_arch (f : List Nat) (pos : Nat) (is64 : Bool) : Option (ParsedFatArch × Nat) :=
  match readU32At f pos .big, readU32At f (pos + 4) .big with
  | some cputype, some cpusubtype =>
    if is64 then
      match readU64At f (pos + 8) .big, readU64At f (pos + 16) .big, readU32At f (pos + 24) .big with
      | some offset, some size, some align =>
        some (⟨cputype, cpusubtype, offset, size, align⟩,
              pos + 28 + ((f.drop (pos + 28)).take 4).length)
      | _, _, _ => none
    else
      match readU32At f (pos + 8) .big, readU32At f (pos + 12) .big, readU32At f (pos + 16) .big with
      | some offset, some size, some align =>
        some (⟨cputype, cpusubtype, offset, size, align⟩, pos + 20)
      | _, _, _ => none
  | _, _ => none

/-- Embeds `MachoParser._parse_segment_command`: operates on the command's retained
bytes; skips the 8-byte preamble, reads the 16-byte `segname` (decoded as
strict UTF-8, then `rstrip('\0')` — `none` models the raised
`UnicodeDecodeError`), then the address/size words per mode and the four
trailing words. -/
def parse_segment_command (cmd : ParsedLoadCommand) (e : Endianness) (is64 : Bool) :
    Option ParsedSegment :=
  let s := cmd.cmd_data.drop 8
  let segnameBytes := s.take 16
  match utf8Strict segnameBytes with
  | none => none
  | some cs =>
    let segname := String.mk (rstripNul cs)
    let s := s.drop 16
    match (if is64 then readU64 e s else readU32 e s) with
    | none => none
    | some (vmaddr, s) =>
      match (if is64 then readU64 e s else readU32 e s) with
      | none => none
      | some (vmsize, s) =>
        match (if is64 then readU64 e s else readU32 e s) with
        | none => none
        | some (fileoff, s) =>
          match (if is64 then readU64 e s else readU32 e s) with
          | none => none
          | some (filesize, s) =>
            match readU32 e s with
            | none => none
            | some (maxprot, s) =>
              match readU32 e s with
              | none => none
              | some (initprot, s) =>
                match readU32 e s with
                | none => none
                | some (nsects, s) =>
                  match readU32 e s with
                  | none => none
                  | some (flags, _) =>
                    some ⟨segname, vmaddr, vmsize, fileoff, filesize, maxprot,
                          initprot, nsects, flags, cmd.cmd_offset, is64, none⟩

/-- The per-section loop of `MachoParser._parse_sections`: two 16-byte names
(read first, then both strictly decoded and `rstrip('\0')`-ed), addr/size per
mode, five 32-bit words of which `reloff` and `nreloc` are discarded, then the
reserved words are skipped. -/
def parseSectionsLoop (e : Endianness) (is64 : Bool) : List Nat → Nat → Option (List ParsedSection)
  | _, 0 => some []
  | s, n + 1 =>
    let sectnameBytes := s.take 16
    let s := s.drop 16
    let segnameBytes := s.take 16
    let s := s.drop 16
    match utf8Strict sectnameBytes with
    | none => none
    | some cs1 =>
      match utf8Strict segnameBytes with
      | none => none
      | some cs2 =>
        match (if is64 then readU64 e s else readU32 e s) with
        | none => none
        | some (addr, s) =>
          match (if is64 then readU64 e s else readU32 e s) with
          | none => none
          | some (size, s) =>
            match readU32 e s with
            | none => none
            | some (offset, s) =>
              match readU32 e s with
              | none => none
              | some (align, s) =>
                match readU32 e s with
                | none => none
                | some (_reloff, s) =>
                  match readU32 e s with
                  | none => none
                  | some (_nreloc, s) =>
                    match readU32 e s with
                    | none => none
                    | some (flags, s) =>
                      let s := s.drop (if is64 then 12 else 8)
                      (parseSectionsLoop e is64 s n).map
                        (fun rest =>
                          ⟨String.mk (rstripNul cs1), String.mk (rstripNul cs2),
                           addr, size, offset, align, flags⟩ :: rest)

/-- Embeds `MachoParser._parse_sections`: seek the retained command bytes to the
first section (56 for 32-bit, 72 for 64-bit) and parse `nsects` sections. -/
def parse_sections (cmd : ParsedLoadCommand) (segment : ParsedSegment) (e : Endianness)
    (is64 : Bool) : Option (List ParsedSection) :=
  parseSectionsLoop e is64 (cmd.cmd_data.drop (if is64 then 72 else 56)) segment.nsects

/-- The command loop of `MachoParser.parse_segments_and_sections`. -/
def segmentsLoop (e : Endianness) (is64 : Bool) : List ParsedLoadCommand → Option (List ParsedSegment)
  | [] => some []
  | cmd :: rest =>
    if cmd.cmd_type = LC_SEGMENT ∨ cmd.cmd_type = LC_SEGMENT_64 then
      match parse_segment_command cmd e is64 with
      | none => none
      | some seg =>
        match (if seg.nsects > 0 then parse_sections cmd seg e is64 else some []) with
        | none => none
        | some secs =>
          (segmentsLoop e is64 rest).map (fun segs => { seg with sections := some secs } :: segs)
    else segmentsLoop e is64 rest

/-- Embeds `MachoParser.parse_segments_and_sections`. -/
def parse_segments_and_sections (header : ParsedHeader) (load_commands : List ParsedLoadCommand) :
    Option (List ParsedSegment) :=
  segmentsLoop header.endianness header.is_64_bit load_commands

/-- Index of the first NUL byte of a list, if any. -/
def findNulIdx : List Nat → Option Nat
  | [] => none
  | b :: rest => if b = 0 then some 0 else (findNulIdx rest).map (· + 1)

/-- Embeds `bytes.find(b'\0', start)` of the string table (absolute index of the
first NUL at or after `start`, `none` for Python's -1). -/
def bytesFindNul (st : List Nat) (start : Nat) : Option Nat :=
  (findNulIdx (st.drop start)).map (· + start)

/-- Symbol-name lookup from the string table (`parse_symbol_table` lines
846-859).  `n_strx` is an unsigned 32-bit read, so the `name_start < 0`
branch of the source is unreachable; the `try/except` fallback name is
likewise dead because neither `find` nor replacement decoding can raise. -/
def symbolName (string_table : List Nat) (n_strx : Nat) : String :=
  if n_strx ≥ string_table.length then "INVALID_STRING_OFFSET_" ++ toString n_strx
  else
    match bytesFindNul string_table n_strx with
    | none => String.mk (utf8Replace (string_table.drop n_strx))
    | some e => String.mk (utf8Replace ((string_table.take e).drop n_strx))

/-- Classification and record construction for one nlist entry
(`parse_symbol_table` lines 861-880). -/
def mkSymbolFrom (string_table : List Nat) (n_strx n_type n_sect : Nat) (n_desc : Int)
    (n_value : Nat) : ParsedSymbol :=
  { name := symbolName string_table n_strx
    type := n_type
    sect := n_sect
    desc := n_desc
    value := n_value
    is_external := n_type &&& N_EXT != 0
    is_debug := n_type &&& N_STAB != 0
    is_local := !(n_type &&& N_EXT != 0) && !(n_type &&& N_STAB != 0)
    is_defined := (n_type &&& N_TYPE == N_SECT) || (n_type &&& N_TYPE == N_ABS) }

/-- The per-entry loop of `MachoParser.parse_symbol_table`, consuming the
symbol-table stream: `n_strx` per byte order, single-byte `n_type` and
`n_sect` (a read at EOF yields 0 via `int.from_bytes`), `n_desc` always
little-endian (`struct.unpack('<h', ...)`), `n_value` per byte order. -/
def parseSymbolsLoop (string_table : List Nat) (is64 : Bool) (e : Endianness) :
    List Nat → Nat → Option (List ParsedSymbol)
  | _, 0 => some []
  | s, n + 1 =>
    match readU32 e s with
    | none => none
    | some (n_strx, s) =>
      let (n_type, s) := readByteFB s
      let (n_sect, s) := readByteFB s
      match readS16LE s with
      | none => none
      | some (n_desc, s) =>
        match (if is64 then readU64 e s else readU32 e s) with
        | none => none
        | some (n_value, s) =>
          (parseSymbolsLoop string_table is64 e s n).map
            (fun rest => mkSymbolFrom string_table n_strx n_type n_sect n_desc n_value :: rest)

/-- The `LC_SYMTAB` command fields consumed by `parse_symbol_table`. -/
structure SymtabCmd where
  symoff : Nat
  nsyms : Nat
  stroff : Nat
  strsize : Nat
deriving DecidableEq

/-- Embeds `MachoParser.parse_symbol_table`: derive byte order and word size from
the magic, read `strsize` bytes of string table at `stroff`, seek to `symoff`
and decode `nsyms` entries. -/
def parse_symbol_table (f : List Nat) (symtab_cmd : SymtabCmd) (magic : Nat) :
    Option (List ParsedSymbol) :=
  match detect_endianness magic with
  | none => none
  | some e =>
    let string_table := (f.drop symtab_cmd.stroff).take symtab_cmd.strsize
    parseSymbolsLoop string_table (is_64_bit magic) e (f.drop symtab_cmd.symoff) symtab_cmd.nsyms

/-- The per-architecture work of `MachoParser.parse_file`'s fat branch, after
seeking to the slice offset: parse the thin header, then the load commands
(note `parse_load_commands` seeks to the absolute offset 28/32), then
segments and sections.  Any exception propagates (`none`). -/
def parseSlice (f : List Nat) (offset : Nat) :
    Option (ParsedHeader × List ParsedLoadCommand × List ParsedSegment) :=
  match parse_header f offset with
  | none => none
  | some (header_data, _) =>
    match parse_load_commands f header_data with
    | none => none
    | some load_commands =>
      match parse_segments_and_sections header_data load_commands with
      | none => none
      | some segments => some (header_data, load_commands, segments)

/-- The `for i in range(fat_header.nfat_arch)` loop of
`MachoParser.parse_file`: each iteration parses one fat arch record, saves
the reader position, processes the slice at `arch.offset`, and restores the
position.  Results committed to the database before a failure are kept
(`acc`); the Bool records whether the loop ran to completion or an exception
escaped. -/
def parseFatLoop (f : List Nat) (is64 : Bool) :
    Nat → Nat → List (ParsedFatArch × ParsedHeader × List ParsedLoadCommand × List ParsedSegment) →
    List (ParsedFatArch × ParsedHeader × List ParsedLoadCommand × List ParsedSegment) × Bool
  | _, 0, acc => (acc, true)
  | pos, n + 1, acc =>
    match parse_fat_arch f pos is64 with
    | none => (acc, false)
    | some (arch, pos') =>
      match parseSlice f arch.offset with
      | none => (acc, false)
      | some slice => parseFatLoop f is64 pos' n (acc ++ [(arch, slice)])

/-! The cross-reference builder, `core/services/analyzer_service.py`
`identify_cross_references`.  Symbols and sections are the database rows the
builder queries, reduced to the fields it reads, with their database ids. -/

/-- A `Symbol` row as read by the cross-reference builder. -/
structure SymbolRec where
  id : Nat
  value : Nat
  sect : Nat
  is_defined : Bool
deriving DecidableEq

/-- A `Section` row as read by the cross-reference builder. -/
structure SectionRec where
  id : Nat
  addr : Nat
  size : Nat
deriving DecidableEq

/-- A `CrossReference` row (without the database-assigned id/file id). -/
structure CrossReference where
  source_type : String
  source_id : Nat
  target_type : String
  target_id : Nat
  offset : Option Nat
  reference_type : String
deriving DecidableEq

/-- The inner section scan of Phase A: emit one `contains` edge at the first
section whose range holds the symbol's value, then `break`. -/
def containsForSymbol (sym : SymbolRec) : List SectionRec → List CrossReference
  | [] => []
  | s :: rest =>
    if s.addr ≤ sym.value ∧ sym.value < s.addr + s.size then
      [⟨"section", s.id, "symbol", sym.id, some (sym.value - s.addr), "contains"⟩]
    else containsForSymbol sym rest

/-- Phase A of `identify_cross_references`: skip non-defined symbols, scan
sections in insertion order. -/
def containsXrefs (symbols : List SymbolRec) (sections : List SectionRec) : List CrossReference :=
  symbols.flatMap (fun sym => if sym.is_defined then containsForSymbol sym sections else [])

/-- The inner symbol scan of Phase B: skip the symbol itself (by id), emit a
`references` edge at every other symbol with the same value. -/
def referencesForSymbol (a : SymbolRec) : List SymbolRec → List CrossReference
  | [] => []
  | b :: rest =>
    if a.id = b.id then referencesForSymbol a rest
    else if a.value = b.value then
      ⟨"symbol", a.id, "symbol", b.id, none, "references"⟩ :: referencesForSymbol a rest
    else referencesForSymbol a rest

/-- Phase B of `identify_cross_references`: sources are the symbols that are
defined with a nonzero section index; targets are all other symbols. -/
def referencesXrefs (symbols : List SymbolRec) : List CrossReference :=
  symbols.flatMap (fun a =>
    if a.is_defined ∧ a.sect ≠ 0 then referencesForSymbol a symbols else [])

/-- Embeds `identify_cross_references`: both phases in order, returning the edges
and the count the function returns. -/
def identify_cross_references (symbols : List SymbolRec) (sections : List SectionRec) :
    List CrossReference × Nat :=
  let xrefs := containsXrefs symbols sections ++ referencesXrefs symbols
  (xrefs, xrefs.length)

/-! Spec-side material: logical nlist entries and their on-disk encodings,
used to compare the decoder's two byte orders against the same logical
content. -/

/-- Little-endian byte encodings of fixed-width words. -/
def le2 (n : Nat) : List Nat := [n % 256, n / 256 % 256]

def le4 (n : Nat) : List Nat :=
  [n % 256, n / 256 % 256, n / 65536 % 256, n / 16777216 % 256]

def le8 (n : Nat) : List Nat :=
  [n % 256, n / 256 % 256, n / 65536 % 256, n / 16777216 % 256,
   n / 4294967296 % 256, n / 1099511627776 % 256,
   n / 281474976710656 % 256, n / 72057594037927936 % 256]

/-- Big-endian byte encodings of fixed-width words. -/
def be2 (n : Nat) : List Nat := [n / 256 % 256, n % 256]

def be4 (n : Nat) : List Nat :=
  [n / 16777216 % 256, n / 65536 % 256, n / 256 % 256, n % 256]

def be8 (n : Nat) : List Nat :=
  [n / 72057594037927936 % 256, n / 281474976710656 % 256,
   n / 1099511627776 % 256, n / 4294967296 % 256,
   n / 16777216 % 256, n / 65536 % 256, n / 256 % 256, n % 256]

/-- Byte swap of a 16-bit pattern. -/
def swap16 (v : Nat) : Nat := v % 256 * 256 + v / 256 % 256

/-- A logical `nlist_64` entry (`n_desc` as its unsigned 16-bit pattern). -/
structure NlistEntry where
  n_strx : Nat
  n_type : Nat
  n_sect : Nat
  n_desc : Nat
  n_value : Nat
deriving DecidableEq

/-- Field ranges of an `nlist_64` entry. -/
def InRange64 (x : NlistEntry) : Prop :=
  x.n_strx < 4294967296 ∧ x.n_type < 256 ∧ x.n_sect < 256 ∧ x.n_desc < 65536 ∧
    x.n_value < 18446744073709551616

/-- The little-endian 16-byte encoding of an `nlist_64` entry. -/
def encodeNlistLE64 (x : NlistEntry) : List Nat :=
  le4 x.n_strx ++ [x.n_type] ++ [x.n_sect] ++ le2 x.n_desc ++ le8 x.n_value

/-- The big-endian 16-byte encoding of an `nlist_64` entry. -/
def encodeNlistBE64 (x : NlistEntry) : List Nat :=
  be4 x.n_strx ++ [x.n_type] ++ [x.n_sect] ++ be2 x.n_desc ++ be8 x.n_value

/-- What the decoder produces for one entry of a little-endian file. -/
def expectedSymLE (st : List Nat) (x : NlistEntry) : ParsedSymbol :=
  mkSymbolFrom st x.n_strx x.n_type x.n_sect (toSigned16 x.n_desc) x.n_value

/-- What the decoder produces for one entry of a big-endian file: identical
except that `desc` comes out byte-swapped (the source always unpacks `n_desc`
with `'<h'`). -/
def expectedSymBE (st : List Nat) (x : NlistEntry) : ParsedSymbol :=
  mkSymbolFrom st x.n_strx x.n_type x.n_sect (toSigned16 (swap16 x.n_desc)) x.n_value

/-- A little-endian symbol-table file: string table at offset 0, entries
immediately after it. -/
def fileLE (st : List Nat) (entries : List NlistEntry) : List Nat :=
  st ++ entries.flatMap encodeNlistLE64

/-- The byte-swapped big-endian encoding of the same logical file. -/
def fileBE (st : List Nat) (entries : List NlistEntry) : List Nat :=
  st ++ entries.flatMap encodeNlistBE64

/-- The `LC_SYMTAB` fields describing `fileLE`/`fileBE`. -/
def symtabCmdFor (st : List Nat) (entries : List NlistEntry) : SymtabCmd :=
  ⟨st.length, entries.length, 0, st.length⟩

/-- Success predicate of the load-command walker: it can fail only by a
command preamble read running past end of file; `cmd_size` is never
inspected. -/
def walkerSucceeds (f : List Nat) (e : Endianness) : Nat → Nat → Bool
  | _, 0 => true
  | pos, n + 1 =>
    if pos + 8 ≤ f.length then
      walkerSucceeds f e (pos + ((f.drop pos).take (u32at f (pos + 4) e)).length) n
    else false

/-- Exactly one of three alternatives holds. -/
def ExactlyOneOfThree (a b c : Prop) : Prop :=
  (a ∧ ¬b ∧ ¬c) ∨ (¬a ∧ b ∧ ¬c) ∨ (¬a ∧ ¬b ∧ c)

/-- The concrete symbols of the C6 counterexample: `c6target` is not defined
yet receives a `references` edge. -/
def c6source : SymbolRec := ⟨1, 5, 1, true⟩

def c6target : SymbolRec := ⟨2, 5, 0, false⟩

/-- The C4 counterexample input: a 32-bit little-endian thin file whose
single load command has `cmd_size = 4 < 8`. -/
def c4file : List Nat :=
  [0xCE, 0xFA, 0xED, 0xFE, 7, 0, 0, 0, 3, 0, 0, 0, 2, 0, 0, 0,
   1, 0, 0, 0, 16, 0, 0, 0, 0, 0, 0, 0,
   1, 0, 0, 0, 4, 0, 0, 0]

/-- The header `parse_header` produces for `c4file`. -/
def c4hdr : ParsedHeader := ⟨0xFEEDFACE, 7, 3, 2, 1, 16, 0, none, false, .little⟩

/-- The C2 counterexample input: a fat binary with two slices; the first
(at offset 48) is corrupt — all zero bytes, an unrecognized magic — and the
second (at offset 80) is a valid 32-bit little-endian Mach-O slice. -/
def c2file : List Nat :=
  [0xCA, 0xFE, 0xBA, 0xBE, 0, 0, 0, 2,
   0, 0, 0, 7, 0, 0, 0, 3, 0, 0, 0, 48, 0, 0, 0, 32, 0, 0, 0, 2,
   0, 0, 0, 12, 0, 0, 0, 2, 0, 0, 0, 80, 0, 0, 0, 28, 0, 0, 0, 2,
   0, 0, 0, 0, 0, 0, 0, 0, 0, 0, 0, 0, 0, 0, 0, 0,
   0, 0, 0, 0, 0, 0, 0, 0, 0, 0, 0, 0, 0, 0, 0, 0,
   0xCE, 0xFA, 0xED, 0xFE, 12, 0, 0, 0, 2, 0, 0, 0, 2, 0, 0, 0,
   0, 0, 0, 0, 0, 0, 0, 0, 0, 0, 0, 0]

/-- The C1 failing input: a fat binary with one architecture slice at offset
44 — a 32-bit little-endian Mach-O with one load command of type 0x19 and
size 8, located at absolute offset 44 + 28 = 72. -/
def c1file : List Nat :=
  [0xCA, 0xFE, 0xBA, 0xBE, 0, 0, 0, 1,
   0, 0, 0, 7, 0, 0, 0, 3, 0, 0, 0, 44, 0, 0, 0, 36, 0, 0, 0, 2,
   0, 0, 0, 0, 0, 0, 0, 0, 0, 0, 0, 0, 0, 0, 0, 0,
   0xCE, 0xFA, 0xED, 0xFE, 7, 0, 0, 0, 3, 0, 0, 0, 2, 0, 0, 0,
   1, 0, 0, 0, 8, 0, 0, 0, 0, 0, 0, 0,
   0x19, 0, 0, 0, 8, 0, 0, 0]

/-- The header `parse_header` produces for the slice of `c1file` at 44. -/
def c1hdr : ParsedHeader := ⟨0xFEEDFACE, 7, 3, 2, 1, 8, 0, none, false, .little⟩

/-- Thirty-two zero bytes (the scalar fields of a 32-bit segment command). -/
def z32 : List Nat :=
  [0, 0, 0, 0, 0, 0, 0, 0, 0, 0, 0, 0, 0, 0, 0, 0,
   0, 0, 0, 0, 0, 0, 0, 0, 0, 0, 0, 0, 0, 0, 0, 0]

/-- Twenty-eight zero bytes (the scalar fields of a 32-bit section entry). -/
def z28 : List Nat :=
  [0, 0, 0, 0, 0, 0, 0, 0, 0, 0, 0, 0, 0, 0,
   0, 0, 0, 0, 0, 0, 0, 0, 0, 0, 0, 0, 0, 0]

/-- A segment command whose name bytes are `nb` and whose scalar fields are
all zero. -/
def segCmdWithName (nb : List Nat) : ParsedLoadCommand :=
  ⟨1, 56, 0, [1, 0, 0, 0, 56, 0, 0, 0] ++ nb ++ z32⟩

/-- The C5 counterexample command: `segname` bytes are `"A\0B"` padded with
NULs. -/
def c5cmd : ParsedLoadCommand := segCmdWithName ([65, 0, 66] ++ List.replicate 13 0)

/-- A segment command whose `segname` field starts with the invalid UTF-8
byte 0xFF. -/
def c5badcmd : ParsedLoadCommand := segCmdWithName (255 :: List.replicate 15 0)

/-- The classification equations every produced symbol satisfies, phrased on
the symbol's own `type` byte. -/
def ClassifiedOk (sym : ParsedSymbol) : Prop :=
  sym.is_external = (sym.type &&& N_EXT != 0) ∧
  sym.is_debug = (sym.type &&& N_STAB != 0) ∧
  sym.is_defined = ((sym.type &&& N_TYPE == N_SECT) || (sym.type &&& N_TYPE == N_ABS)) ∧
  sym.is_local = (!(sym.type &&& N_EXT != 0) && !(sym.type &&& N_STAB != 0))

/-- The file of the C8 witness: a one-byte string table followed by a single
`nlist_64` entry with type byte 0x0F (external, defined in a section). -/
def c8file : List Nat :=
  [0, 0, 0, 0, 0, 0x0F, 1, 0, 0, 0x10, 0, 0, 0, 0, 0, 0, 0]

def c8cmd : SymtabCmd := ⟨1, 1, 0, 1⟩

def c8sym : ParsedSymbol := mkSymbolFrom [0] 0 0x0F 1 0 0x10

/-- The single logical entry of the C3 counterexample, with `n_desc = 1`. -/
def c3entry : NlistEntry := ⟨0, 14, 1, 1, 16⟩

/-- The C9 witness inputs: string table `"hi\0!"`; the first entry's name is
read from offset 1 (`"i"`), the second entry's `n_strx = 9` is out of range
and yields the sentinel. -/
def c9st : List Nat := [104, 105, 0, 33]

def c9entries : List NlistEntry := [⟨1, 14, 1, 0, 16⟩, ⟨9, 1, 0, 0, 0⟩]

/-! ## Claim theorems -/

/-- C10: the fat-binary check reads only the four bytes at the current
position, restores the read position on every path, and answers `false`
(rather than failing) on a source holding fewer than four bytes. -/
theorem c10_is_fat_binary_frame (f : List Nat) (pos : Nat) :
    (is_fat_binary f pos).2 = pos ∧
    ((f.drop pos).length < 4 → (is_fat_binary f pos).1 = false) ∧
    (∀ g : List Nat, (g.drop pos).take 4 = (f.drop pos).take 4 →
      is_fat_binary g pos = is_fat_binary f pos) := by
  refine ⟨?_, ?_, ?_⟩
  · unfold is_fat_binary
    dsimp only
    split <;> rfl
  · intro h
    unfold is_fat_binary
    dsimp only
    rw [if_neg]
    rw [List.length_take, List.length_drop]
    rw [List.length_drop] at h
    omega
  · intro g hg
    unfold is_fat_binary
    rw [hg]

theorem c10_is_fat_binary_frame_witness :
    (is_fat_binary [0xCA, 0xFE] 0).1 = false ∧ (is_fat_binary [0xCA, 0xFE] 0).2 = 0 :=
  ⟨(c10_is_fat_binary_frame [0xCA, 0xFE] 0).2.1 (by decide),
   (c10_is_fat_binary_frame [0xCA, 0xFE] 0).1⟩

/-- The inner section scan emits the edge of the first section (in list
order) whose address range holds the symbol's value. -/
theorem containsForSymbol_eq_find (sym : SymbolRec) (sections : List SectionRec) :
    containsForSymbol sym sections =
      ((sections.find? (fun s => decide (s.addr ≤ sym.value ∧ sym.value < s.addr + s.size))).map
        (fun s => ⟨"section", s.id, "symbol", sym.id, some (sym.value - s.addr), "contains"⟩)).toList := by
  induction sections with
  | nil => rfl
  | cons s rest ih =>
    by_cases h : s.addr ≤ sym.value ∧ sym.value < s.addr + s.size
    · simp [containsForSymbol, List.find?, h]
    · simp [containsForSymbol, List.find?, h, ih]

/-- C7: Phase A emits, for each defined symbol, exactly one `contains` edge
when some section's range holds the symbol's value — from the first such
section in insertion order, with byte offset `value - addr` — and no edge for
symbols outside every section or not defined. -/
theorem c7_contains_edges (symbols : List SymbolRec) (sections : List SectionRec) :
    containsXrefs symbols sections = symbols.filterMap (fun sym =>
      if sym.is_defined = true then
        (sections.find? (fun s => decide (s.addr ≤ sym.value ∧ sym.value < s.addr + s.size))).map
          (fun s => ⟨"section", s.id, "symbol", sym.id, some (sym.value - s.addr), "contains"⟩)
      else none) := by
  induction symbols with
  | nil => rfl
  | cons sym rest ih =>
    unfold containsXrefs at ih ⊢
    rw [List.flatMap_cons, List.filterMap_cons, ih]
    by_cases h : sym.is_defined = true
    · rw [if_pos h, if_pos h, containsForSymbol_eq_find]
      cases sections.find? (fun s => decide (s.addr ≤ sym.value ∧ sym.value < s.addr + s.size)) <;> simp
    · rw [if_neg h, if_neg h]
      simp

/-- Membership in the inner symbol scan of Phase B. -/
theorem mem_referencesForSymbol (a : SymbolRec) (l : List SymbolRec) (x : CrossReference) :
    x ∈ referencesForSymbol a l ↔
      ∃ b ∈ l, a.id ≠ b.id ∧ a.value = b.value ∧
        x = ⟨"symbol", a.id, "symbol", b.id, none, "references"⟩ := by
  induction l with
  | nil => simp [referencesForSymbol]
  | cons b rest ih =>
    unfold referencesForSymbol
    by_cases h1 : a.id = b.id
    · rw [if_pos h1, ih]
      constructor
      · rintro ⟨c, hc, hne, hv, hx⟩
        exact ⟨c, List.mem_cons_of_mem _ hc, hne, hv, hx⟩
      · rintro ⟨c, hc, hne, hv, hx⟩
        rcases List.mem_cons.mp hc with rfl | hc
        · exact absurd h1 hne
        · exact ⟨c, hc, hne, hv, hx⟩
    · rw [if_neg h1]
      by_cases h2 : a.value = b.value
      · rw [if_pos h2]
        constructor
        · intro hx
          rcases List.mem_cons.mp hx with rfl | hx
          · exact ⟨b, List.mem_cons_self _ _, h1, h2, rfl⟩
          · obtain ⟨c, hc, hne, hv, hxc⟩ := ih.mp hx
            exact ⟨c, List.mem_cons_of_mem _ hc, hne, hv, hxc⟩
        · rintro ⟨c, hc, hne, hv, hx⟩
          rcases List.mem_cons.mp hc with rfl | hc
          · exact hx ▸ List.mem_cons_self _ _
          · exact List.mem_cons_of_mem _ (ih.mpr ⟨c, hc, hne, hv, hx⟩)
      · rw [if_neg h2, ih]
        constructor
        · rintro ⟨c, hc, hne, hv, hx⟩
          exact ⟨c, List.mem_cons_of_mem _ hc, hne, hv, hx⟩
        · rintro ⟨c, hc, hne, hv, hx⟩
          rcases List.mem_cons.mp hc with rfl | hc
          · exact absurd hv h2
          · exact ⟨c, hc, hne, hv, hx⟩

/-- C6 (amended): a `references` edge is emitted exactly for the ordered
pairs of distinct symbols `(a, b)` such that `a` is defined with `a.sect ≠ 0`
and `a.value = b.value`; the target `b` is *not* required to be defined. -/
theorem c6_references_edges (symbols : List SymbolRec) (x : CrossReference) :
    x ∈ referencesXrefs symbols ↔
      ∃ a ∈ symbols, ∃ b ∈ symbols, a.is_defined = true ∧ a.sect ≠ 0 ∧ a.id ≠ b.id ∧
        a.value = b.value ∧ x = ⟨"symbol", a.id, "symbol", b.id, none, "references"⟩ := by
  unfold referencesXrefs
  rw [List.mem_flatMap]
  constructor
  · rintro ⟨a, ha, hx⟩
    by_cases h : a.is_defined = true ∧ a.sect ≠ 0
    · rw [if_pos h] at hx
      obtain ⟨b, hb, hne, hv, hxb⟩ := (mem_referencesForSymbol a symbols x).mp hx
      exact ⟨a, ha, b, hb, h.1, h.2, hne, hv, hxb⟩
    · rw [if_neg h] at hx
      exact absurd hx (List.not_mem_nil x)
  · rintro ⟨a, ha, b, hb, hdef, hsect, hne, hv, hx⟩
    refine ⟨a, ha, ?_⟩
    rw [if_pos ⟨hdef, hsect⟩]
    exact (mem_referencesForSymbol a symbols x).mpr ⟨b, hb, hne, hv, hx⟩

/-- C6 counterexample: the builder emits the edge `1 → 2` although the target
symbol (id 2) has `is_defined = false`, contradicting the claim that both
endpoints of every `references` edge are defined. -/
theorem c6_counterexample :
    referencesXrefs [c6source, c6target] =
      [⟨"symbol", 1, "symbol", 2, none, "references"⟩] ∧
    c6target.is_defined = false ∧
    (∃ x ∈ referencesXrefs [c6source, c6target], x.target_id = c6target.id) := by
  decide

/-- C4 (amended): the load-command walker performs no `cmd_size` validation —
there is no malformed-command error in the code.  It fails only when a
command's 8-byte preamble extends past the end of the file, and whenever it
succeeds it returns exactly `n` commands, regardless of the `cmd_size`
values encountered (in particular for `cmd_size < 8` or sizes running past
`sizeofcmds`). -/
theorem c4_walker_no_size_validation (f : List Nat) (e : Endianness) (pos n : Nat) :
    ((parseLoadCommandsLoop f e pos n).isSome = walkerSucceeds f e pos n) ∧
    (∀ l, parseLoadCommandsLoop f e pos n = some l → l.length = n) := by
  induction n generalizing pos with
  | zero => exact ⟨rfl, fun l hl => by cases hl; rfl⟩
  | succ n ih =>
    constructor
    · unfold parseLoadCommandsLoop walkerSucceeds
      by_cases h : pos + 8 ≤ f.length
      · rw [if_pos h]
        unfold readU32At
        rw [if_pos (by omega : pos + 4 ≤ f.length), if_pos (by omega : pos + 4 + 4 ≤ f.length)]
        dsimp only
        rw [Option.isSome_map']
        exact (ih (pos + ((f.drop pos).take (u32at f (pos + 4) e)).length)).1
      · rw [if_neg h]
        unfold readU32At
        rw [if_neg (by omega : ¬pos + 4 + 4 ≤ f.length)]
        cases hfst : (if pos + 4 ≤ f.length then some (u32at f pos e) else none) <;> rfl
    · intro l hl
      unfold parseLoadCommandsLoop at hl
      cases h1 : readU32At f pos e with
      | none => rw [h1] at hl; exact absurd hl (by simp)
      | some ct =>
        cases h2 : readU32At f (pos + 4) e with
        | none => rw [h1, h2] at hl; exact absurd hl (by simp)
        | some cs =>
          rw [h1, h2] at hl
          dsimp only at hl
          cases h3 : parseLoadCommandsLoop f e (pos + ((f.drop pos).take cs).length) n with
          | none => rw [h3] at hl; exact absurd hl (by simp)
          | some rest =>
            rw [h3] at hl
            cases hl
            have := (ih (pos + ((f.drop pos).take cs).length)).2 rest h3
            simp [this]

/-- C4 counterexample: on an input whose load command has `cmd_size = 4 < 8`
the walker does not fail — it returns a command list (with the malformed
size recorded verbatim), so no `MalformedLoadCommand` error is raised. -/
theorem c4_counterexample :
    parse_header c4file 0 = some (c4hdr, 28) ∧
    c4hdr.ncmds = 1 ∧
    parse_load_commands c4file c4hdr = some [⟨1, 4, 28, [1, 0, 0, 0]⟩] := by
  decide

theorem c4_walker_no_size_validation_witness :
    ((parseLoadCommandsLoop c4file .little 28 1).isSome = walkerSucceeds c4file .little 28 1) ∧
    ([(⟨1, 4, 28, [1, 0, 0, 0]⟩ : ParsedLoadCommand)].length = 1) :=
  ⟨(c4_walker_no_size_validation c4file .little 28 1).1,
   (c4_walker_no_size_validation c4file .little 28 1).2 [⟨1, 4, 28, [1, 0, 0, 0]⟩] (by decide)⟩

/-- C2 (amended): fat-slice failures are not isolated.  As soon as one
slice fails to parse (e.g. an unrecognized magic at its offset), the
exception escapes the per-architecture loop: only the slices already
committed before the failure survive, and no later sibling slice is parsed
at all. -/
theorem c2_fat_slice_failure_aborts (f : List Nat) (is64 : Bool) (pos n : Nat)
    (acc : List (ParsedFatArch × ParsedHeader × List ParsedLoadCommand × List ParsedSegment))
    (arch : ParsedFatArch) (pos2 : Nat)
    (h1 : parse_fat_arch f pos is64 = some (arch, pos2))
    (h2 : parseSlice f arch.offset = none) :
    parseFatLoop f is64 pos (n + 1) acc = (acc, false) := by
  unfold parseFatLoop
  rw [h1]
  dsimp only
  rw [h2]

/-- C2 counterexample: `c2file` is recognized as fat with two architectures;
its second slice parses fine on its own, yet the per-architecture loop
aborts at the corrupt first slice and produces no header for the valid
sibling — the failure is not captured per slice. -/
theorem c2_counterexample :
    is_fat_binary c2file 0 = (true, 0) ∧
    parse_fat_header c2file 0 = some (⟨0xCAFEBABE, 2, false⟩, 8) ∧
    parseFatLoop c2file false 8 2 [] = ([], false) ∧
    (parseSlice c2file 80).isSome = true := by
  refine ⟨by decide, by decide, by decide, by decide⟩

theorem c2_fat_slice_failure_aborts_witness :
    parseFatLoop c2file false 8 2 [] = ([], false) :=
  c2_fat_slice_failure_aborts c2file false 8 1 [] ⟨7, 3, 48, 32, 2⟩ 28 (by decide) (by decide)

/-- C1: evaluating the parser at the failing input.  The fat dispatch finds
the slice at offset 44, but the load-command walker then seeks to the
*absolute* file offset 28 — inside the fat header padding — and returns a
command read there with `cmd_offset = 28`, not at `offset + 28 = 72` with a
slice-relative `cmd_offset`; the slice's actual command (type 0x19, size 8)
at 72, which slice-relative reading would return, is never read. -/
theorem c1_load_commands_read_at_absolute_offset :
    is_fat_binary c1file 0 = (true, 0) ∧
    parse_fat_header c1file 0 = some (⟨0xCAFEBABE, 1, false⟩, 8) ∧
    parse_fat_arch c1file 8 false = some (⟨7, 3, 44, 36, 2⟩, 28) ∧
    parseSlice c1file 44 = some (c1hdr, [⟨0, 0, 28, []⟩], []) ∧
    parseLoadCommandsLoop c1file .little (44 + 28) 1 =
      some [⟨0x19, 8, 72, [0x19, 0, 0, 0, 8, 0, 0, 0]⟩] := by
  refine ⟨by decide, by decide, by decide, by decide, by decide⟩

/-- C5 (amended): a 16-byte name field is decoded by strict UTF-8 over all
16 bytes followed by `rstrip('\0')`: bytes after an interior NUL are
retained in the name, and non-UTF-8 content raises, aborting the segment or
section parse.  This holds for the segment `segname` and for both 16-byte
names of a section entry. -/
theorem c5_name_decoding (nb nb1 nb2 : List Nat)
    (h16 : nb.length = 16) (h161 : nb1.length = 16) (h162 : nb2.length = 16) :
    (utf8Strict nb = none →
      parse_segment_command (segCmdWithName nb) .little false = none) ∧
    (∀ cs, utf8Strict nb = some cs →
      (parse_segment_command (segCmdWithName nb) .little false).map ParsedSegment.segname =
        some (String.mk (rstripNul cs))) ∧
    (utf8Strict nb1 = none →
      parseSectionsLoop .little false (nb1 ++ nb2 ++ z28) 1 = none) ∧
    (∀ cs1, utf8Strict nb1 = some cs1 → utf8Strict nb2 = none →
      parseSectionsLoop .little false (nb1 ++ nb2 ++ z28) 1 = none) ∧
    (∀ cs1 cs2, utf8Strict nb1 = some cs1 → utf8Strict nb2 = some cs2 →
      parseSectionsLoop .little false (nb1 ++ nb2 ++ z28) 1 =
        some [⟨String.mk (rstripNul cs1), String.mk (rstripNul cs2), 0, 0, 0, 0, 0⟩]) := by
  have hdropseg : (segCmdWithName nb).cmd_data.drop 8 = nb ++ z32 := rfl
  have htake : (nb ++ z32).take 16 = nb := List.take_left' h16
  have hdrop : (nb ++ z32).drop 16 = z32 := List.drop_left' h16
  have htake1 : (nb1 ++ (nb2 ++ z28)).take 16 = nb1 := List.take_left' h161
  have hdrop1 : (nb1 ++ (nb2 ++ z28)).drop 16 = nb2 ++ z28 := List.drop_left' h161
  have htake2 : (nb2 ++ z28).take 16 = nb2 := List.take_left' h162
  have hdrop2 : (nb2 ++ z28).drop 16 = z28 := List.drop_left' h162
  refine ⟨?_, ?_, ?_, ?_, ?_⟩
  · intro hnone
    unfold parse_segment_command
    rw [hdropseg]
    dsimp only
    rw [htake, hnone]
  · intro cs hcs
    unfold parse_segment_command
    rw [hdropseg]
    dsimp only
    rw [htake, hcs, hdrop]
    rfl
  · intro hnone
    unfold parseSectionsLoop
    rw [List.append_assoc]
    dsimp only
    rw [htake1, hnone]
  · intro cs1 hcs1 hnone
    unfold parseSectionsLoop
    rw [List.append_assoc]
    dsimp only
    rw [htake1, hdrop1, htake2, hcs1, hnone]
  · intro cs1 cs2 hcs1 hcs2
    unfold parseSectionsLoop
    rw [List.append_assoc]
    dsimp only
    rw [htake1, hdrop1, htake2, hdrop2, hcs1, hcs2]
    rfl

/-- C5 counterexample: for `segname` bytes `41 00 42` + NUL padding the
decoded name is `"A\x00B"` (bytes after the interior NUL survive), not the
NUL-terminated prefix `"A"`; and a name field holding the byte 0xFF makes
the decode raise — it is not replacement-tolerant. -/
theorem c5_counterexample :
    (parse_segment_command c5cmd .little false).map ParsedSegment.segname =
      some (String.mk [Char.ofNat 65, Char.ofNat 0, Char.ofNat 66]) ∧
    String.mk [Char.ofNat 65, Char.ofNat 0, Char.ofNat 66] ≠ "A" ∧
    parse_segment_command c5badcmd .little false = none := by
  refine ⟨by decide, by decide, by decide⟩

theorem c5_name_decoding_witness :
    (parse_segment_command (segCmdWithName ([65, 0, 66] ++ List.replicate 13 0)) .little
        false).map ParsedSegment.segname =
      some (String.mk (rstripNul [Char.ofNat 65, Char.ofNat 0, Char.ofNat 66,
        Char.ofNat 0, Char.ofNat 0, Char.ofNat 0, Char.ofNat 0, Char.ofNat 0, Char.ofNat 0,
        Char.ofNat 0, Char.ofNat 0, Char.ofNat 0, Char.ofNat 0, Char.ofNat 0, Char.ofNat 0,
        Char.ofNat 0])) :=
  (c5_name_decoding ([65, 0, 66] ++ List.replicate 13 0) ([65, 0, 66] ++ List.replicate 13 0)
      ([65, 0, 66] ++ List.replicate 13 0) (by decide) (by decide) (by decide)).2.1
    _ (by decide)

/-- Every symbol the entry loop produces is built by `mkSymbolFrom`, hence
classified from its own type byte. -/
theorem parseSymbolsLoop_classified (st : List Nat) (is64 : Bool) (e : Endianness) :
    ∀ (n : Nat) (s : List Nat) (syms : List ParsedSymbol),
      parseSymbolsLoop st is64 e s n = some syms → ∀ sym ∈ syms, ClassifiedOk sym := by
  intro n
  induction n with
  | zero =>
    intro s syms h sym hm
    cases h
    exact absurd hm (List.not_mem_nil sym)
  | succ n ih =>
    intro s syms h sym hm
    unfold parseSymbolsLoop at h
    cases h1 : readU32 e s with
    | none => rw [h1] at h; exact absurd h (by simp)
    | some v1 =>
      obtain ⟨strx, s1⟩ := v1
      rw [h1] at h
      dsimp only at h
      cases h2 : readS16LE (readByteFB (readByteFB s1).2).2 with
      | none => rw [h2] at h; exact absurd h (by simp)
      | some v2 =>
        obtain ⟨desc, s2⟩ := v2
        rw [h2] at h
        dsimp only at h
        cases h3 : (if is64 then readU64 e s2 else readU32 e s2) with
        | none => rw [h3] at h; exact absurd h (by simp)
        | some v3 =>
          obtain ⟨value, s3⟩ := v3
          rw [h3] at h
          dsimp only at h
          cases h4 : parseSymbolsLoop st is64 e s3 n with
          | none => rw [h4] at h; exact absurd h (by simp)
          | some rest =>
            rw [h4] at h
            cases h
            rcases List.mem_cons.mp hm with rfl | hmem
            · exact ⟨rfl, rfl, rfl, rfl⟩
            · exact ih s3 rest h4 sym hmem

/-- Exactly one of debug / external-non-debug / local holds, for any type
byte. -/
theorem classification_trichotomy (ext dbg : Bool) :
    ExactlyOneOfThree (dbg = true) ((ext && !dbg) = true) ((!ext && !dbg) = true) := by
  cases ext <;> cases dbg <;> simp [ExactlyOneOfThree]

/-- C8: every symbol decoded by `parse_symbol_table` satisfies the
classification law: `is_external = (type & 0x01) ≠ 0`,
`is_debug = (type & 0xE0) ≠ 0`, `is_defined ↔ (type & 0x0E) ∈ {0x0E, 0x02}`,
`is_local = ¬is_external ∧ ¬is_debug`, and exactly one of `is_debug`,
`is_external ∧ ¬is_debug`, `is_local` holds. -/
theorem c8_symbol_classification (f : List Nat) (cmd : SymtabCmd) (magic : Nat)
    (syms : List ParsedSymbol) (h : parse_symbol_table f cmd magic = some syms)
    (sym : ParsedSymbol) (hm : sym ∈ syms) :
    ClassifiedOk sym ∧
    ExactlyOneOfThree (sym.is_debug = true) ((sym.is_external && !sym.is_debug) = true)
      (sym.is_local = true) := by
  unfold parse_symbol_table at h
  cases hd : detect_endianness magic with
  | none => rw [hd] at h; exact absurd h (by simp)
  | some e =>
    rw [hd] at h
    dsimp only at h
    have hok := parseSymbolsLoop_classified _ _ _ _ _ _ h sym hm
    refine ⟨hok, ?_⟩
    obtain ⟨hext, hdbg, hdef, hloc⟩ := hok
    rw [hext, hdbg, hloc]
    exact classification_trichotomy (sym.type &&& N_EXT != 0) (sym.type &&& N_STAB != 0)

theorem c8_symbol_classification_witness :
    ClassifiedOk c8sym ∧
    ExactlyOneOfThree (c8sym.is_debug = true) ((c8sym.is_external && !c8sym.is_debug) = true)
      (c8sym.is_local = true) :=
  c8_symbol_classification c8file c8cmd MAGIC_64_LE [c8sym] (by decide) c8sym
    (List.mem_singleton.mpr rfl)

/-! Round-trip lemmas: decoding an encoded `nlist_64` entry recovers its
fields (with `desc` byte-swapped under the big-endian parse, since the
source always unpacks it little-endian). -/

theorem unpack32_le4 (n : Nat) (h : n < 4294967296) :
    unpack32 .little (n % 256) (n / 256 % 256) (n / 65536 % 256) (n / 16777216 % 256) = n := by
  simp only [unpack32]
  omega

theorem unpack32_be4 (n : Nat) (h : n < 4294967296) :
    unpack32 .big (n / 16777216 % 256) (n / 65536 % 256) (n / 256 % 256) (n % 256) = n := by
  simp only [unpack32]
  omega

theorem unpack64_le8 (n : Nat) (h : n < 18446744073709551616) :
    unpack64 .little (n % 256) (n / 256 % 256) (n / 65536 % 256) (n / 16777216 % 256)
      (n / 4294967296 % 256) (n / 1099511627776 % 256) (n / 281474976710656 % 256)
      (n / 72057594037927936 % 256) = n := by
  simp only [unpack64]
  omega

theorem unpack64_be8 (n : Nat) (h : n < 18446744073709551616) :
    unpack64 .big (n / 72057594037927936 % 256) (n / 281474976710656 % 256)
      (n / 1099511627776 % 256) (n / 4294967296 % 256) (n / 16777216 % 256)
      (n / 65536 % 256) (n / 256 % 256) (n % 256) = n := by
  simp only [unpack64]
  omega

theorem toSigned16_le2 (d : Nat) (h : d < 65536) :
    toSigned16 (d % 256 + 256 * (d / 256 % 256)) = toSigned16 d := by
  congr 1
  omega

theorem toSigned16_be2 (d : Nat) :
    toSigned16 (d / 256 % 256 + 256 * (d % 256)) = toSigned16 (swap16 d) := by
  congr 1
  unfold swap16
  omega

/-- Decoding the little-endian encoding of entries recovers every field
verbatim (`desc` via its signed reading). -/
theorem parseSymbolsLoop_encodeLE (st : List Nat) :
    ∀ entries : List NlistEntry, (∀ x ∈ entries, InRange64 x) →
      parseSymbolsLoop st true .little (entries.flatMap encodeNlistLE64) entries.length =
        some (entries.map (expectedSymLE st)) := by
  intro entries
  induction entries with
  | nil => intro _; rfl
  | cons x rest ih =>
    intro h
    obtain ⟨h1, h2, h3, h4, h5⟩ := h x (List.mem_cons_self x rest)
    have hrest : ∀ y ∈ rest, InRange64 y := fun y hy => h y (List.mem_cons_of_mem x hy)
    rw [List.flatMap_cons, List.length_cons, List.map_cons]
    simp only [encodeNlistLE64, le4, le2, le8, List.cons_append, List.nil_append,
      List.append_assoc]
    simp only [parseSymbolsLoop, readU32, readU64, readByteFB, readS16LE, if_true]
    rw [ih hrest]
    simp only [Option.map_some']
    rw [unpack32_le4 x.n_strx h1, toSigned16_le2 x.n_desc h4, unpack64_le8 x.n_value h5]
    rfl

/-- Decoding the big-endian encoding recovers every field except `desc`,
which comes out byte-swapped. -/
theorem parseSymbolsLoop_encodeBE (st : List Nat) :
    ∀ entries : List NlistEntry, (∀ x ∈ entries, InRange64 x) →
      parseSymbolsLoop st true .big (entries.flatMap encodeNlistBE64) entries.length =
        some (entries.map (expectedSymBE st)) := by
  intro entries
  induction entries with
  | nil => intro _; rfl
  | cons x rest ih =>
    intro h
    obtain ⟨h1, h2, h3, h4, h5⟩ := h x (List.mem_cons_self x rest)
    have hrest : ∀ y ∈ rest, InRange64 y := fun y hy => h y (List.mem_cons_of_mem x hy)
    rw [List.flatMap_cons, List.length_cons, List.map_cons]
    simp only [encodeNlistBE64, be4, be2, be8, List.cons_append, List.nil_append,
      List.append_assoc]
    simp only [parseSymbolsLoop, readU32, readU64, readByteFB, readS16LE, if_true]
    rw [ih hrest]
    simp only [Option.map_some']
    rw [unpack32_be4 x.n_strx h1, toSigned16_be2 x.n_desc, unpack64_be8 x.n_value h5]
    rfl

/-- Evaluates `parse_symbol_table` over the little-endian file. -/
theorem parse_symbol_table_fileLE (st : List Nat) (entries : List NlistEntry)
    (h : ∀ x ∈ entries, InRange64 x) :
    parse_symbol_table (fileLE st entries) (symtabCmdFor st entries) MAGIC_64_LE =
      some (entries.map (expectedSymLE st)) := by
  unfold parse_symbol_table symtabCmdFor
  rw [show detect_endianness MAGIC_64_LE = some Endianness.little from rfl]
  dsimp only
  unfold fileLE
  rw [List.drop_zero, List.take_left, List.drop_left,
    show is_64_bit MAGIC_64_LE = true from rfl]
  exact parseSymbolsLoop_encodeLE st entries h

/-- Evaluates `parse_symbol_table` over the big-endian file. -/
theorem parse_symbol_table_fileBE (st : List Nat) (entries : List NlistEntry)
    (h : ∀ x ∈ entries, InRange64 x) :
    parse_symbol_table (fileBE st entries) (symtabCmdFor st entries) MAGIC_64_BE =
      some (entries.map (expectedSymBE st)) := by
  unfold parse_symbol_table symtabCmdFor
  rw [show detect_endianness MAGIC_64_BE = some Endianness.big from rfl]
  dsimp only
  unfold fileBE
  rw [List.drop_zero, List.take_left, List.drop_left,
    show is_64_bit MAGIC_64_BE = true from rfl]
  exact parseSymbolsLoop_encodeBE st entries h

/-- C3 (amended): parsing the little-endian and the byte-swapped big-endian
encoding of the same logical symbol table yields symbol lists that agree on
every field except `desc`: `n_strx` and `n_value` are decoded with the byte
order selected from the magic, but `n_desc` is always unpacked little-endian
(`'<h'`), so the big-endian parse sees it byte-swapped. -/
theorem c3_endianness_except_desc (st : List Nat) (entries : List NlistEntry)
    (h : ∀ x ∈ entries, InRange64 x) :
    parse_symbol_table (fileLE st entries) (symtabCmdFor st entries) MAGIC_64_LE =
      some (entries.map (expectedSymLE st)) ∧
    parse_symbol_table (fileBE st entries) (symtabCmdFor st entries) MAGIC_64_BE =
      some (entries.map (expectedSymBE st)) ∧
    List.Forall₂ (fun a b : ParsedSymbol =>
        a.name = b.name ∧ a.type = b.type ∧ a.sect = b.sect ∧ a.value = b.value ∧
        a.is_external = b.is_external ∧ a.is_debug = b.is_debug ∧
        a.is_local = b.is_local ∧ a.is_defined = b.is_defined)
      (entries.map (expectedSymLE st)) (entries.map (expectedSymBE st)) := by
  refine ⟨parse_symbol_table_fileLE st entries h, parse_symbol_table_fileBE st entries h, ?_⟩
  rw [List.forall₂_map_right_iff, List.forall₂_map_left_iff, List.forall₂_same]
  intro x _
  simp only [expectedSymLE, expectedSymBE, mkSymbolFrom]
  simp

/-- C3 counterexample: the same logical file, encoded little-endian and
big-endian, parses to symbols whose `desc` fields differ (1 vs 256 — the
byte-swap), so the two models are not equal up to the magic field. -/
theorem c3_counterexample :
    (parse_symbol_table (fileLE [0] [c3entry]) (symtabCmdFor [0] [c3entry]) MAGIC_64_LE).map
        (List.map ParsedSymbol.desc) = some [1] ∧
    (parse_symbol_table (fileBE [0] [c3entry]) (symtabCmdFor [0] [c3entry]) MAGIC_64_BE).map
        (List.map ParsedSymbol.desc) = some [256] ∧
    (1 : Int) ≠ 256 := by
  refine ⟨by decide, by decide, by decide⟩

theorem c3entry_inrange : ∀ x ∈ [c3entry], InRange64 x := by
  intro x hx
  rw [List.mem_singleton] at hx
  subst hx
  refine ⟨by decide, by decide, by decide, by decide, by decide⟩

theorem c3_endianness_except_desc_witness :
    parse_symbol_table (fileLE [0] [c3entry]) (symtabCmdFor [0] [c3entry]) MAGIC_64_LE =
      some ([c3entry].map (expectedSymLE [0])) ∧
    parse_symbol_table (fileBE [0] [c3entry]) (symtabCmdFor [0] [c3entry]) MAGIC_64_BE =
      some ([c3entry].map (expectedSymBE [0])) :=
  ⟨(c3_endianness_except_desc [0] [c3entry] c3entry_inrange).1,
   (c3_endianness_except_desc [0] [c3entry] c3entry_inrange).2.1⟩

/-- If a list holds no NUL, `takeWhile (· ≠ 0)` keeps it whole. -/
theorem takeWhile_of_findNulIdx_none (l : List Nat) (h : findNulIdx l = none) :
    l.takeWhile (fun b => b != 0) = l := by
  induction l with
  | nil => rfl
  | cons b rest ih =>
    unfold findNulIdx at h
    by_cases hb : b = 0
    · rw [if_pos hb] at h
      cases h
    · rw [if_neg hb] at h
      have hrest : findNulIdx rest = none := by
        cases hf : findNulIdx rest with
        | none => rfl
        | some k => rw [hf] at h; cases h
      simp [List.takeWhile_cons, hb, ih hrest]

/-- The run of bytes before the first NUL is what `takeWhile` keeps. -/
theorem takeWhile_of_findNulIdx_some (l : List Nat) :
    ∀ k, findNulIdx l = some k → l.takeWhile (fun b => b != 0) = l.take k := by
  induction l with
  | nil => intro k h; cases h
  | cons b rest ih =>
    intro k h
    unfold findNulIdx at h
    by_cases hb : b = 0
    · rw [if_pos hb] at h
      cases h
      subst hb
      rw [List.takeWhile_cons]
      simp
    · rw [if_neg hb] at h
      cases hf : findNulIdx rest with
      | none => rw [hf] at h; cases h
      | some k0 =>
        rw [hf] at h
        simp only [Option.map_some'] at h
        cases h
        simp [List.takeWhile_cons, hb, ih k0 hf]

/-- The name lookup, characterized: out-of-range `n_strx` yields the
sentinel; otherwise the bytes from `n_strx` to the first NUL (or the end of
the table), decoded with replacement. -/
theorem symbolName_spec (st : List Nat) (strx : Nat) :
    symbolName st strx =
      if st.length ≤ strx then "INVALID_STRING_OFFSET_" ++ toString strx
      else String.mk (utf8Replace ((st.drop strx).takeWhile (fun b => b != 0))) := by
  unfold symbolName
  by_cases h : st.length ≤ strx
  · rw [if_pos (by omega : strx ≥ st.length), if_pos h]
  · rw [if_neg (by omega : ¬strx ≥ st.length), if_neg h]
    unfold bytesFindNul
    cases hf : findNulIdx (st.drop strx) with
    | none =>
      simp only [Option.map_none']
      rw [takeWhile_of_findNulIdx_none _ hf]
    | some k =>
      simp only [Option.map_some']
      rw [takeWhile_of_findNulIdx_some _ k hf]
      have hxy : (st.take (k + strx)).drop strx = (st.drop strx).take k := by
        rw [List.drop_take]
        congr 1
        omega
      rw [hxy]

/-- C9: decoding a symbol table never aborts on an out-of-range `n_strx`:
every entry still yields a Symbol (the decode returns exactly `nsyms`
symbols), with the sentinel name `INVALID_STRING_OFFSET_<strx>` when
`n_strx ≥ strsize`, and otherwise the name is the byte run from `n_strx` up
to the next NUL (or the end of the table), UTF-8 decoded with replacement. -/
theorem c9_string_table_names (st : List Nat) (entries : List NlistEntry)
    (h : ∀ x ∈ entries, InRange64 x) :
    ∃ syms, parse_symbol_table (fileLE st entries) (symtabCmdFor st entries) MAGIC_64_LE =
        some syms ∧
      syms.length = entries.length ∧
      List.Forall₂ (fun (x : NlistEntry) (sym : ParsedSymbol) =>
          sym.name =
            if st.length ≤ x.n_strx then "INVALID_STRING_OFFSET_" ++ toString x.n_strx
            else String.mk (utf8Replace ((st.drop x.n_strx).takeWhile (fun b => b != 0))))
        entries syms := by
  refine ⟨entries.map (expectedSymLE st), parse_symbol_table_fileLE st entries h, by simp, ?_⟩
  rw [List.forall₂_map_right_iff, List.forall₂_same]
  intro x _
  show (expectedSymLE st x).name = _
  have hname : (expectedSymLE st x).name = symbolName st x.n_strx := rfl
  rw [hname, symbolName_spec]

theorem c9entries_inrange : ∀ x ∈ c9entries, InRange64 x := by
  intro x hx
  rcases List.mem_cons.mp hx with rfl | hx
  · refine ⟨by decide, by decide, by decide, by decide, by decide⟩
  · rcases List.mem_singleton.mp hx with rfl
    refine ⟨by decide, by decide, by decide, by decide, by decide⟩

theorem c9_string_table_names_witness :
    ∃ syms, parse_symbol_table (fileLE c9st c9entries) (symtabCmdFor c9st c9entries)
        MAGIC_64_LE = some syms ∧
      syms.length = c9entries.length ∧
      List.Forall₂ (fun (x : NlistEntry) (sym : ParsedSymbol) =>
          sym.name =
            if c9st.length ≤ x.n_strx then "INVALID_STRING_OFFSET_" ++ toString x.n_strx
            else String.mk (utf8Replace ((c9st.drop x.n_strx).takeWhile (fun b => b != 0))))
        c9entries syms :=
  c9_string_table_names c9st c9entries c9entries_inrange


end AppleCore
